import Mathlib

/-!
Verification of the `sessions` Go package (token codec, key ring, session
manager) against its natural-language specification.

The development shallowly embeds the relevant source files:
  * `store.go`   — `NewTokenOfLength`, `VerifyToken`, `token.String`, `token.ID`
  * `manager.go` — `NewManager`, `BeginSession`, `GetToken`

Go byte slices are embedded as `List Nat` (each element < 256 where it
matters), Go strings as `List Char` (the strings involved are ASCII, where
Go bytes and runes coincide), and Go `(value, error)` returns as
`Except String` with the literal `fmt.Errorf` message strings.  The
`crypto/rand` reader is passed in explicitly (it is a package-level
injectable in the source); `math/rand` key-index selection is passed in as
a natural number.  HMAC-SHA256 and URL-safe base64 (Go's padded
`base64.URLEncoding`) are implemented in full below.
-/

set_option maxHeartbeats 1000000

/-- Go `[]byte`. -/
abbrev Bytes := List Nat

/-! ## SHA-256 (`crypto/sha256`) -/

/-- Truncate to a 32-bit word. -/
def u32 (x : Nat) : Nat := x % 4294967296

/-- 32-bit right rotation. -/
def rotr (n x : Nat) : Nat := u32 ((x >>> n) ||| (x <<< (32 - n)))

/-- Bitwise complement of a 32-bit word. -/
def not32 (x : Nat) : Nat := 4294967295 ^^^ x

def sigBig0 (x : Nat) : Nat := rotr 2 x ^^^ rotr 13 x ^^^ rotr 22 x

def sigBig1 (x : Nat) : Nat := rotr 6 x ^^^ rotr 11 x ^^^ rotr 25 x

def sigSmall0 (x : Nat) : Nat := rotr 7 x ^^^ rotr 18 x ^^^ (x >>> 3)

def sigSmall1 (x : Nat) : Nat := rotr 17 x ^^^ rotr 19 x ^^^ (x >>> 10)

def chFn (x y z : Nat) : Nat := (x &&& y) ^^^ (not32 x &&& z)

def majFn (x y z : Nat) : Nat := (x &&& y) ^^^ (x &&& z) ^^^ (y &&& z)

/-- The eight 32-bit words of the SHA-256 state. -/
structure H8 where
  a : Nat
  b : Nat
  c : Nat
  d : Nat
  e : Nat
  f : Nat
  g : Nat
  h : Nat
deriving DecidableEq, Repr

def sha256InitH : H8 :=
  ⟨1779033703, 3144134277, 1013904242, 2773480762,
   1359893119, 2600822924, 528734635, 1541459225⟩

def sha256K : List Nat :=
  [1116352408, 1899447441, 3049323471, 3921009573, 961987163,
   1508970993, 2453635748, 2870763221, 3624381080, 310598401,
   607225278, 1426881987, 1925078388, 2162078206, 2614888103,
   3248222580, 3835390401, 4022224774, 264347078, 604807628,
   770255983, 1249150122, 1555081692, 1996064986, 2554220882,
   2821834349, 2952996808, 3210313671, 3336571891, 3584528711,
   113926993, 338241895, 666307205, 773529912, 1294757372,
   1396182291, 1695183700, 1986661051, 2177026350, 2456956037,
   2730485921, 2820302411, 3259730800, 3345764771, 3516065817,
   3600352804, 4094571909, 275423344, 430227734, 506948616,
   659060556, 883997877, 958139571, 1322822218, 1537002063,
   1747873779, 1955562222, 2024104815, 2227730452, 2361852424,
   2428436474, 2756734187, 3204031479, 3329325298]

/-- Extend a 16-word block by `n` further message-schedule words. -/
def schedExt : List Nat → Nat → List Nat
  | ws, 0 => ws
  | ws, n + 1 =>
      schedExt
        (ws ++ [u32 (sigSmall1 (ws.getD (ws.length - 2) 0) +
                     ws.getD (ws.length - 7) 0 +
                     sigSmall0 (ws.getD (ws.length - 15) 0) +
                     ws.getD (ws.length - 16) 0)]) n

/-- One SHA-256 compression round; `kw` is `K[t] + W[t]`. -/
def sha256Round (st : H8) (kw : Nat) : H8 :=
  let t1 := u32 (st.h + sigBig1 st.e + chFn st.e st.f st.g + kw)
  let t2 := u32 (sigBig0 st.a + majFn st.a st.b st.c)
  ⟨u32 (t1 + t2), st.a, st.b, st.c, u32 (st.d + t1), st.e, st.f, st.g⟩

/-- Compress one 16-word block into the running state. -/
def sha256Compress (st : H8) (block : List Nat) : H8 :=
  let ws := schedExt block 48
  let st2 := (List.zipWith (fun k w => k + w) sha256K ws).foldl sha256Round st
  ⟨u32 (st.a + st2.a), u32 (st.b + st2.b), u32 (st.c + st2.c), u32 (st.d + st2.d),
   u32 (st.e + st2.e), u32 (st.f + st2.f), u32 (st.g + st2.g), u32 (st.h + st2.h)⟩

/-- Big-endian bytes of a 32-bit word. -/
def wordBytes (w : Nat) : Bytes :=
  [w / 16777216 % 256, w / 65536 % 256, w / 256 % 256, w % 256]

/-- Big-endian bytes of a 64-bit length field. -/
def be64 (n : Nat) : Bytes :=
  [n / 72057594037927936 % 256, n / 281474976710656 % 256,
   n / 1099511627776 % 256, n / 4294967296 % 256,
   n / 16777216 % 256, n / 65536 % 256, n / 256 % 256, n % 256]

/-- Group bytes into big-endian 32-bit words. -/
def bytesToWords : Bytes → List Nat
  | b1 :: b2 :: b3 :: b4 :: rest =>
      (b1 * 16777216 + b2 * 65536 + b3 * 256 + b4) :: bytesToWords rest
  | _ => []

/-- Split a byte list into 64-byte chunks (fuel bounds the recursion; one
chunk consumes at least one byte, so `l.length` is always enough fuel). -/
def chunks64Go : Nat → Bytes → List Bytes
  | 0, _ => []
  | _, [] => []
  | fuel + 1, l => l.take 64 :: chunks64Go fuel (l.drop 64)

/-- Split a byte list into 64-byte chunks. -/
def chunks64 (l : Bytes) : List Bytes := chunks64Go l.length l

/-- SHA-256 message padding: `0x80`, zeros to 56 mod 64, 8-byte bit length. -/
def sha256PadTail (len : Nat) : Bytes :=
  0x80 :: List.replicate ((64 - (len + 9) % 64) % 64) 0 ++ be64 (8 * len)

def h8bytes (st : H8) : Bytes :=
  wordBytes st.a ++ wordBytes st.b ++ wordBytes st.c ++ wordBytes st.d ++
  wordBytes st.e ++ wordBytes st.f ++ wordBytes st.g ++ wordBytes st.h

/-- SHA-256 of a byte list. -/
def sha256 (msg : Bytes) : Bytes :=
  let padded := msg ++ sha256PadTail msg.length
  h8bytes ((chunks64 padded).foldl
    (fun st blk => sha256Compress st (bytesToWords blk)) sha256InitH)

theorem wordBytes_length (w : Nat) : (wordBytes w).length = 4 := rfl

theorem wordBytes_lt (w : Nat) : ∀ b ∈ wordBytes w, b < 256 := by
  intro b hb
  simp only [wordBytes, List.mem_cons, List.not_mem_nil, or_false] at hb
  rcases hb with h | h | h | h <;> subst h <;> exact Nat.mod_lt _ (by norm_num)

theorem h8bytes_length (st : H8) : (h8bytes st).length = 32 := by
  simp [h8bytes, wordBytes]

theorem h8bytes_lt (st : H8) : ∀ b ∈ h8bytes st, b < 256 := by
  intro b hb
  simp only [h8bytes, List.mem_append] at hb
  rcases hb with ((((((h | h) | h) | h) | h) | h) | h) | h <;>
    exact wordBytes_lt _ _ h

theorem sha256_length (msg : Bytes) : (sha256 msg).length = 32 := by
  unfold sha256
  exact h8bytes_length _

theorem sha256_lt (msg : Bytes) : ∀ b ∈ sha256 msg, b < 256 := by
  unfold sha256
  exact h8bytes_lt _

/-! ## HMAC-SHA256 (`crypto/hmac` with a SHA-256 block size of 64 bytes) -/

/-- HMAC-SHA256 as used by `hmac.New(sha256.New, key)` followed by
`Write(msg)` and `Sum`. -/
def hmacSHA256 (key msg : Bytes) : Bytes :=
  let k0 := if 64 < key.length then sha256 key else key
  let kp := k0 ++ List.replicate (64 - k0.length) 0
  sha256 (kp.map (fun b => b ^^^ 0x5c) ++ sha256 (kp.map (fun b => b ^^^ 0x36) ++ msg))

theorem hmacSHA256_length (key msg : Bytes) : (hmacSHA256 key msg).length = 32 :=
  sha256_length _

theorem hmacSHA256_lt (key msg : Bytes) : ∀ b ∈ hmacSHA256 key msg, b < 256 :=
  sha256_lt _

/-! ## URL-safe base64 with mandatory padding (Go `encoding/base64.URLEncoding`)

Go's `URLEncoding` uses the URL-safe alphabet with `=` padding required on
decode.  The decoder ignores non-zero trailing bits in a final partial
quantum (Go's default, non-`Strict` behaviour) and rejects any input whose
length is not a multiple of four or whose padding is misplaced.  Go's
decode errors carry a byte offset; the single message `decodeErrMsg`
stands in for them (error identity is all the claims depend on). -/

def b64alphabet : List Char :=
  "ABCDEFGHIJKLMNOPQRSTUVWXYZabcdefghijklmnopqrstuvwxyz0123456789-_".toList

def b64char (n : Nat) : Char := b64alphabet.getD n 'A'

def b64index (c : Char) : Option Nat := b64alphabet.findIdx? (fun x => x = c)

def decodeErrMsg : String := "illegal base64 data"

/-- Encode bytes in URL-safe base64 with padding. -/
def b64encode : Bytes → List Char
  | [] => []
  | [b1] => [b64char (b1 / 4), b64char (b1 % 4 * 16), '=', '=']
  | [b1, b2] => [b64char (b1 / 4), b64char (b1 % 4 * 16 + b2 / 16),
                 b64char (b2 % 16 * 4), '=']
  | b1 :: b2 :: b3 :: rest =>
      b64char (b1 / 4) :: b64char (b1 % 4 * 16 + b2 / 16) ::
      b64char (b2 % 16 * 4 + b3 / 64) :: b64char (b3 % 64) :: b64encode rest

/-- Decode URL-safe base64 with mandatory padding. -/
def b64decode : List Char → Except String Bytes
  | [] => .ok []
  | c1 :: c2 :: c3 :: c4 :: rest =>
      match b64index c1, b64index c2 with
      | some n1, some n2 =>
          if c3 = '=' then
            if c4 = '=' ∧ rest = [] then .ok [n1 * 4 + n2 / 16]
            else .error decodeErrMsg
          else
            match b64index c3 with
            | some n3 =>
                if c4 = '=' then
                  if rest = [] then .ok [n1 * 4 + n2 / 16, n2 % 16 * 16 + n3 / 4]
                  else .error decodeErrMsg
                else
                  match b64index c4 with
                  | some n4 =>
                      match b64decode rest with
                      | .ok tail =>
                          .ok ((n1 * 4 + n2 / 16) :: (n2 % 16 * 16 + n3 / 4) ::
                               (n3 % 4 * 64 + n4) :: tail)
                      | .error e => .error e
                  | none => .error decodeErrMsg
            | none => .error decodeErrMsg
      | _, _ => .error decodeErrMsg
  | _ => .error decodeErrMsg

/-- Remove trailing `=` padding characters. -/
def stripPad (l : List Char) : List Char :=
  (l.reverse.dropWhile (fun c => c = '=')).reverse

theorem b64index_b64char : ∀ n, n < 64 → b64index (b64char n) = some n := by
  decide

theorem b64char_ne_eq : ∀ n, n < 64 → b64char n ≠ '=' := by
  decide

theorem b64encode_roundtrip (buf : Bytes) (h : ∀ b ∈ buf, b < 256) :
    b64decode (b64encode buf) = .ok buf := by
  match buf with
  | [] => rfl
  | [b1] =>
      have h1 : b1 < 256 := h b1 (by simp)
      have e1 := b64index_b64char (b1 / 4) (by omega)
      have e2 := b64index_b64char (b1 % 4 * 16) (by omega)
      simp [b64encode, b64decode, e1, e2]
      all_goals omega
  | [b1, b2] =>
      have h1 : b1 < 256 := h b1 (by simp)
      have h2 : b2 < 256 := h b2 (by simp)
      have e1 := b64index_b64char (b1 / 4) (by omega)
      have e2 := b64index_b64char (b1 % 4 * 16 + b2 / 16) (by omega)
      have e3 := b64index_b64char (b2 % 16 * 4) (by omega)
      have ne3 := b64char_ne_eq (b2 % 16 * 4) (by omega)
      simp [b64encode, b64decode, e1, e2, e3, ne3]
      all_goals omega
  | b1 :: b2 :: b3 :: rest =>
      have h1 : b1 < 256 := h b1 (by simp)
      have h2 : b2 < 256 := h b2 (by simp)
      have h3 : b3 < 256 := h b3 (by simp)
      have ih := b64encode_roundtrip rest
        (fun b hb => h b (by simp only [List.mem_cons]; tauto))
      have e1 := b64index_b64char (b1 / 4) (by omega)
      have e2 := b64index_b64char (b1 % 4 * 16 + b2 / 16) (by omega)
      have e3 := b64index_b64char (b2 % 16 * 4 + b3 / 64) (by omega)
      have e4 := b64index_b64char (b3 % 64) (by omega)
      have ne3 := b64char_ne_eq (b2 % 16 * 4 + b3 / 64) (by omega)
      have ne4 := b64char_ne_eq (b3 % 64) (by omega)
      simp [b64encode, b64decode, e1, e2, e3, e4, ne3, ne4, ih]
      all_goals omega

theorem b64decode_len_mod4 (l : List Char) (h : l.length % 4 ≠ 0) :
    b64decode l = .error decodeErrMsg := by
  match l with
  | [] => simp at h
  | [c1] => rfl
  | [c1, c2] => rfl
  | [c1, c2, c3] => rfl
  | c1 :: c2 :: c3 :: c4 :: rest =>
      have hr : rest.length % 4 ≠ 0 := by
        simp only [List.length_cons] at h
        omega
      have ih := b64decode_len_mod4 rest hr
      have hrest : rest ≠ [] := by
        intro he
        subst he
        simp at hr
      simp only [b64decode, ih]
      repeat' split
      all_goals simp_all

theorem stripPad_append (a b : List Char) (hb : stripPad b ≠ []) :
    stripPad (a ++ b) = a ++ stripPad b := by
  unfold stripPad at hb ⊢
  have hne : (b.reverse.dropWhile (fun c => c = '=')).isEmpty = false := by
    cases he : b.reverse.dropWhile (fun c => c = '=') with
    | nil => exact absurd (by simp [he]) hb
    | cons x xs => simp
  rw [List.reverse_append, List.dropWhile_append, hne]
  simp

theorem stripPad_encode_mod3 (buf : Bytes) (h : ∀ b ∈ buf, b < 256)
    (hm : buf.length % 3 ≠ 0) :
    (stripPad (b64encode buf)).length % 4 ≠ 0 := by
  match buf with
  | [] => simp at hm
  | [b1] =>
      have h1 : b1 < 256 := h b1 (by simp)
      have ne1 := b64char_ne_eq (b1 / 4) (by omega)
      have ne2 := b64char_ne_eq (b1 % 4 * 16) (by omega)
      simp [stripPad, b64encode, List.dropWhile, ne2]
  | [b1, b2] =>
      have h1 : b1 < 256 := h b1 (by simp)
      have h2 : b2 < 256 := h b2 (by simp)
      have ne3 := b64char_ne_eq (b2 % 16 * 4) (by omega)
      simp [stripPad, b64encode, List.dropWhile, ne3]
  | b1 :: b2 :: b3 :: rest =>
      have hrm : rest.length % 3 ≠ 0 := by
        simp only [List.length_cons] at hm
        omega
      have ih := stripPad_encode_mod3 rest
        (fun b hb => h b (by simp only [List.mem_cons]; tauto)) hrm
      have hne : stripPad (b64encode rest) ≠ [] := by
        intro he
        rw [he] at ih
        simp at ih
      have henc : b64encode (b1 :: b2 :: b3 :: rest) =
          [b64char (b1 / 4), b64char (b1 % 4 * 16 + b2 / 16),
           b64char (b2 % 16 * 4 + b3 / 64), b64char (b3 % 64)] ++ b64encode rest := by
        simp [b64encode]
      rw [henc, stripPad_append _ _ hne]
      simp only [List.length_append, List.length_cons, List.length_nil]
      omega

/-! ## Token codec (`store.go`)

`Token` wraps the buffer `ID bytes (>= MinIDLength) || HMAC signature
(32 bytes)`.  `NewTokenOfLength` takes the outcome of the injectable
`randReader.Read` as an explicit argument: `.error e` models a failing
read, `.ok rb` models a read that writes `rb` over the zero-initialised
`idLength`-byte buffer (Go's `crypto/rand` reader fills it completely, so
in every theorem of interest `rb` has length `idLength`). -/

def MinIDLength : Nat := 16

def DefaultIDLength : Nat := 32

/-- `sha256.Size`. -/
def sha256Size : Nat := 32

structure Token where
  buf : Bytes
deriving DecidableEq, Repr

/-- `token.String()`: base64 of the whole buffer. -/
def tokenString (t : Token) : List Char := b64encode t.buf

/-- `token.ID()`: the buffer without the trailing 32 signature bytes. -/
def tokenID (t : Token) : Bytes := t.buf.take (t.buf.length - sha256Size)

/-- `NewTokenOfLength(signingKey, idLength)` with the random read made
explicit. -/
def newTokenOfLength (signingKey : Bytes) (idLength : Nat)
    (randRead : Except String Bytes) : Except String Token :=
  if signingKey.length = 0 then .error "zero-length signing key"
  else if idLength < MinIDLength then .error "ID length must be at least 16"
  else
    match randRead with
    | .error e => .error ("error reading random bytes: " ++ e)
    | .ok rb =>
        let idbuf := rb.take idLength ++ List.replicate (idLength - rb.length) 0
        .ok ⟨idbuf ++ hmacSHA256 signingKey idbuf⟩

/-- `VerifyToken(b64token, signingKey)`. -/
def verifyToken (b64token : List Char) (signingKey : Bytes) :
    Except String Token :=
  if signingKey.length = 0 then .error "zero-length signing key"
  else
    match b64decode b64token with
    | .error e => .error ("error base64-decoding the token: " ++ e)
    | .ok buf =>
        if buf.length < sha256Size + MinIDLength then
          .error "token not long enough"
        else
          let sigStart := buf.length - sha256Size
          if buf.drop sigStart = hmacSHA256 signingKey (buf.take sigStart) then
            .ok ⟨buf⟩
          else
            .error "token has been modified since signed"

theorem newTokenOfLength_idbuf (signingKey rb : Bytes) (idLength : Nat)
    (hk : signingKey ≠ []) (hlen : MinIDLength ≤ idLength) :
    newTokenOfLength signingKey idLength (.ok rb) =
      .ok ⟨(rb.take idLength ++ List.replicate (idLength - rb.length) 0) ++
           hmacSHA256 signingKey
             (rb.take idLength ++ List.replicate (idLength - rb.length) 0)⟩ := by
  unfold newTokenOfLength
  rw [if_neg (by simpa using hk), if_neg (by omega)]

theorem idbuf_length (rb : Bytes) (idLength : Nat) :
    (rb.take idLength ++ List.replicate (idLength - rb.length) 0).length =
      idLength := by
  simp only [List.length_append, List.length_take, List.length_replicate]
  omega

theorem idbuf_lt (rb : Bytes) (idLength : Nat) (h : ∀ b ∈ rb, b < 256) :
    ∀ b ∈ rb.take idLength ++ List.replicate (idLength - rb.length) 0,
      b < 256 := by
  intro b hb
  rcases List.mem_append.mp hb with hl | hr
  · exact h b (List.mem_of_mem_take hl)
  · have := List.eq_of_mem_replicate hr
    omega

/-- Core round trip: verifying the transport string of a token whose buffer
is `id ++ hmac(key, id)` with `id` of length at least 16 succeeds with the
same buffer, under any key whose HMAC of the id matches. -/
theorem verifyToken_ok (key idb : Bytes) (hk : key ≠ [])
    (hlen : MinIDLength ≤ idb.length) (hb : ∀ b ∈ idb, b < 256) :
    verifyToken (tokenString ⟨idb ++ hmacSHA256 key idb⟩) key =
      .ok ⟨idb ++ hmacSHA256 key idb⟩ := by
  have hball : ∀ b ∈ idb ++ hmacSHA256 key idb, b < 256 := by
    intro b hbm
    rcases List.mem_append.mp hbm with hl | hr
    · exact hb b hl
    · exact hmacSHA256_lt key idb b hr
  have hdec := b64encode_roundtrip (idb ++ hmacSHA256 key idb) hball
  have hlen2 : (idb ++ hmacSHA256 key idb).length = idb.length + 32 := by
    simp [hmacSHA256_length]
  unfold verifyToken tokenString
  rw [if_neg (by simpa using hk), hdec]
  dsimp only
  rw [if_neg (by simp only [hlen2, sha256Size, MinIDLength] at *; omega)]
  have hstart : (idb ++ hmacSHA256 key idb).length - sha256Size = idb.length := by
    simp only [hlen2, sha256Size]
    omega
  rw [hstart]
  rw [List.drop_left' rfl, List.take_left' rfl, if_pos rfl]

/-! ## Session manager (`manager.go`)

`GetToken` is embedded over the two request fields it reads:
`r.Header.Get("Authorization")` (empty string when the header is absent)
and `r.URL.Query().Get("auth")` (empty string when the parameter is
absent).  Go's `authHeader[len(authTypeBearer)+1:]` slice panics when the
index exceeds the string length; `GoResult.crash` records that run-time
panic.  The opaque `Store` interface value held by the manager plays no
part in `NewManager` or `GetToken` and is left out of the structure;
`BeginSession`'s single `Store.Save` call is passed in as a function
argument and its invocation is recorded in the outcome. -/

def errNoToken : String := "no session token"

def errUnsupportedTokenType : String := "unsupported session token type"

/-- `authTypeBearer`. -/
def bearerChars : List Char := "Bearer".toList

structure Manager where
  idLength : Nat
  signingKeys : List Bytes
deriving DecidableEq

/-- `NewManager(idLength, signingKeys, store)`; its Go return type is a
bare `Manager`, so it cannot reject anything. -/
def newManager (idLength : Nat) (signingKeys : List Bytes) : Manager :=
  ⟨idLength, signingKeys⟩

/-- Result of a Go call returning `(Token, error)`: either a run-time
panic, or the pair of (possibly nil) token and (possibly nil) error. -/
inductive GoResult where
  | crash : GoResult
  | ret : Option Token → Option String → GoResult
deriving DecidableEq

/-- Go string slicing `s[i:]`: panics (`none`) when `i > len(s)`. -/
def goSliceFrom (s : List Char) (i : Nat) : Option (List Char) :=
  if i ≤ s.length then some (s.drop i) else none

/-- The `for _, key := range m.signingKeys` loop of `GetToken`, carrying
the `tk`/`err` variables; a success breaks out of the loop. -/
def verifyLoop (b64tk : List Char) (keys : List Bytes)
    (tk : Option Token) (er : Option String) : Option Token × Option String :=
  match keys with
  | [] => (tk, er)
  | key :: rest =>
      match verifyToken b64tk key with
      | .ok t => (some t, none)
      | .error e => verifyLoop b64tk rest none (some e)

/-- The tail of `GetToken` after the `Bearer ` prefix has been sliced off:
run the key loop, then wrap a pending error or return the token. -/
def verifyRemainder (m : Manager) (b64tk : List Char) : GoResult :=
  match verifyLoop b64tk m.signingKeys none none with
  | (_, some e) => .ret none (some ("error verifying session token: " ++ e))
  | (tk, none) => .ret tk none

/-- `GetToken(r)` over the header value and the `auth` query value. -/
def getToken (m : Manager) (authHeaderIn queryAuth : List Char) : GoResult :=
  let authHeader := if authHeaderIn.length = 0 then queryAuth else authHeaderIn
  if authHeader.length = 0 then .ret none (some errNoToken)
  else if ¬ (bearerChars.isPrefixOf authHeader) then
    .ret none (some errUnsupportedTokenType)
  else
    match goSliceFrom authHeader (bearerChars.length + 1) with
    | none => .crash
    | some b64tk => verifyRemainder m b64tk

instance {ε α : Type} [DecidableEq ε] [DecidableEq α] :
    DecidableEq (Except ε α) := fun a b =>
  match a, b with
  | .ok x, .ok y =>
      if h : x = y then .isTrue (congrArg Except.ok h)
      else .isFalse (fun he => h (Except.ok.inj he))
  | .error x, .error y =>
      if h : x = y then .isTrue (congrArg Except.error h)
      else .isFalse (fun he => h (Except.error.inj he))
  | .ok _, .error _ => .isFalse (fun he => Except.noConfusion he)
  | .error _, .ok _ => .isFalse (fun he => Except.noConfusion he)

/-- What a `BeginSession` call did: its return value, the token passed to
`Store.Save` (if `Save` was invoked at all), and the `Authorization`
response header written (if any). -/
structure BeginOutcome where
  result : Except String Token
  savedToken : Option Token
  headerAdded : Option (List Char)
deriving DecidableEq

/-- `BeginSession(w, sessionState)`.  `keyidx` stands for the value drawn
from the shared `keyIndexGenerator`; `Intn` guarantees a value below the
ring size (and panics — `none` here — when the ring is empty).  `saveResult`
is the outcome `Store.Save` would produce for a given token. -/
def beginSession (m : Manager) (keyidx : Nat) (randRead : Except String Bytes)
    (saveResult : Token → Except String Unit) : Option BeginOutcome :=
  if m.signingKeys.length = 0 then none
  else
    let key := m.signingKeys.getD (keyidx % m.signingKeys.length) []
    match newTokenOfLength key m.idLength randRead with
    | .error e => some ⟨.error ("error generating new token: " ++ e), none, none⟩
    | .ok tk =>
        match saveResult tk with
        | .error e =>
            some ⟨.error ("error saving session state: " ++ e), some tk, none⟩
        | .ok _ =>
            some ⟨.ok tk, some tk,
                  some (bearerChars ++ [' '] ++ tokenString tk)⟩

/-! ## Supporting lemmas about the codec and the manager -/

theorem newTokenOfLength_inv (key rb : Bytes) (idLength : Nat) (tk : Token)
    (h : newTokenOfLength key idLength (.ok rb) = .ok tk) :
    key ≠ [] ∧ MinIDLength ≤ idLength ∧
    tk = ⟨(rb.take idLength ++ List.replicate (idLength - rb.length) 0) ++
          hmacSHA256 key
            (rb.take idLength ++ List.replicate (idLength - rb.length) 0)⟩ := by
  unfold newTokenOfLength at h
  split at h
  · cases h
  · split at h
    · cases h
    · rename_i hk hlt
      refine ⟨by simpa using hk, by omega, (Except.ok.inj h).symm⟩

theorem newTokenOfLength_randErr (key : Bytes) (idLength : Nat) (re : String) :
    ∃ e, newTokenOfLength key idLength (.error re) = .error e := by
  unfold newTokenOfLength
  split
  · exact ⟨_, rfl⟩
  · split
    · exact ⟨_, rfl⟩
    · exact ⟨_, rfl⟩

theorem verifyToken_ok_buf (s : List Char) (k : Bytes) (t : Token)
    (h : verifyToken s k = .ok t) : b64decode s = .ok t.buf := by
  unfold verifyToken at h
  split at h
  · cases h
  · rename_i hk
    cases hd : b64decode s with
    | error e => rw [hd] at h; cases h
    | ok buf =>
        rw [hd] at h
        dsimp only at h
        split at h
        · cases h
        · split at h
          · rw [← Except.ok.inj h]
          · cases h

theorem verifyToken_same_buf (s : List Char) (k1 k2 : Bytes) (t1 t2 : Token)
    (h1 : verifyToken s k1 = .ok t1) (h2 : verifyToken s k2 = .ok t2) :
    t1 = t2 := by
  have e1 := verifyToken_ok_buf s k1 t1 h1
  have e2 := verifyToken_ok_buf s k2 t2 h2
  rw [e1] at e2
  cases t1
  cases t2
  simpa using Except.ok.inj e2

theorem verifyLoop_ok (s : List Char) (keys : List Bytes) (t : Token)
    (hex : ∃ k ∈ keys, verifyToken s k = .ok t)
    (huniq : ∀ k t2, verifyToken s k = .ok t2 → t2 = t) :
    ∀ a b, verifyLoop s keys a b = (some t, none) := by
  match keys with
  | [] =>
      obtain ⟨k, hk, _⟩ := hex
      simp at hk
  | key :: rest =>
      intro a b
      unfold verifyLoop
      cases hv : verifyToken s key with
      | ok t2 => rw [huniq key t2 hv]
      | error e =>
          apply verifyLoop_ok s rest t ?_ huniq
          obtain ⟨k, hk, hkv⟩ := hex
          rcases List.mem_cons.mp hk with heq | hm
          · subst heq
            rw [hv] at hkv
            cases hkv
          · exact ⟨k, hm, hkv⟩

theorem verifyLoop_allFail (s : List Char) (keys : List Bytes)
    (hne : keys ≠ [])
    (hfail : ∀ k ∈ keys, ∃ e, verifyToken s k = .error e) :
    ∃ klast e, keys.getLast? = some klast ∧ verifyToken s klast = .error e ∧
      ∀ a b, verifyLoop s keys a b = (none, some e) := by
  match keys with
  | [key] =>
      obtain ⟨e, he⟩ := hfail key (by simp)
      refine ⟨key, e, rfl, he, fun a b => ?_⟩
      unfold verifyLoop verifyLoop
      rw [he]
  | key :: key2 :: rest =>
      obtain ⟨e0, he0⟩ := hfail key (by simp)
      obtain ⟨klast, e, hl, hle, hloop⟩ :=
        verifyLoop_allFail s (key2 :: rest) (by simp)
          (fun k hk => hfail k (List.mem_cons_of_mem key hk))
      refine ⟨klast, e, ?_, hle, fun a b => ?_⟩
      · rw [← hl]
        exact List.getLast?_cons_cons ..
      · unfold verifyLoop
        rw [he0]
        exact hloop none (some e0)

theorem wrap_ne_noToken (e : String) :
    "error verifying session token: " ++ e ≠ errNoToken := by
  intro h
  have h2 := congrArg String.length h
  rw [String.length_append] at h2
  rw [show ("error verifying session token: ").length = 31 from rfl,
      show errNoToken.length = 16 from rfl] at h2
  omega

theorem verifyRemainder_ne_noToken (m : Manager) (b64tk : List Char) :
    verifyRemainder m b64tk ≠ .ret none (some errNoToken) := by
  unfold verifyRemainder
  split
  · rename_i e heq
    intro hc
    rcases GoResult.ret.inj hc with ⟨-, h2⟩
    exact wrap_ne_noToken e (Option.some.inj h2)
  · rename_i heq
    intro hc
    rcases GoResult.ret.inj hc with ⟨-, h2⟩
    cases h2

theorem bearer_isPrefixOf_append (s : List Char) :
    bearerChars.isPrefixOf ("Bearer ".toList ++ s) = true := by
  rw [show ("Bearer ".toList : List Char) = bearerChars ++ [' '] by decide]
  rw [List.append_assoc, List.isPrefixOf_iff_prefix]
  exact List.prefix_append ..

theorem getToken_bearer (m : Manager) (s : List Char) :
    getToken m ("Bearer ".toList ++ s) [] = verifyRemainder m s := by
  have hne : ¬ ("Bearer ".toList ++ s).length = 0 := by
    rw [List.length_append, show ("Bearer ".toList).length = 7 from rfl]
    omega
  unfold getToken
  simp only [if_neg hne]
  rw [if_neg (by rw [bearer_isPrefixOf_append]; simp)]
  unfold goSliceFrom
  have h7 : bearerChars.length + 1 = ("Bearer ".toList).length := rfl
  rw [h7, if_pos (by simp), List.drop_left]

theorem getToken_candidate_only (m : Manager) (hdr q : List Char)
    (h : hdr ≠ []) : getToken m hdr q = getToken m hdr [] := by
  have hl : ¬ hdr.length = 0 := by simpa using h
  unfold getToken
  simp only [if_neg hl]

theorem getToken_single_ne_noToken (m : Manager) (cand : List Char)
    (h : cand ≠ []) :
    getToken m cand [] ≠ .ret none (some errNoToken) := by
  have hl : ¬ cand.length = 0 := by simpa using h
  unfold getToken
  rw [if_neg hl]
  dsimp only
  rw [if_neg hl]
  by_cases hp : bearerChars.isPrefixOf cand
  · rw [if_neg (by simp [hp])]
    cases hs : goSliceFrom cand (bearerChars.length + 1) with
    | none => simp
    | some b => exact verifyRemainder_ne_noToken m b
  · rw [if_pos (by simp [hp])]
    intro hc
    rcases GoResult.ret.inj hc with ⟨-, h2⟩
    have := Option.some.inj h2
    rw [show errUnsupportedTokenType = "unsupported session token type" from rfl,
        show errNoToken = "no session token" from rfl] at this
    exact absurd this (by decide)

/-- Shared helper: the padding-stripped transport string of a token whose
buffer length is not a multiple of three is rejected by `VerifyToken` with
a base64-decoding error. -/
theorem verify_stripped_fails (key idb : Bytes) (hk : key ≠ [])
    (hb : ∀ b ∈ idb, b < 256) (hm : (idb.length + 32) % 3 ≠ 0) :
    verifyToken (stripPad (tokenString ⟨idb ++ hmacSHA256 key idb⟩)) key =
      .error ("error base64-decoding the token: " ++ decodeErrMsg) := by
  have hball : ∀ b ∈ idb ++ hmacSHA256 key idb, b < 256 := by
    intro b hbm
    rcases List.mem_append.mp hbm with hl | hr
    · exact hb b hl
    · exact hmacSHA256_lt key idb b hr
  have hlen3 : (idb ++ hmacSHA256 key idb).length % 3 ≠ 0 := by
    rw [List.length_append, hmacSHA256_length]
    exact hm
  have hstrip := stripPad_encode_mod3 _ hball hlen3
  have hdec := b64decode_len_mod4 _ hstrip
  unfold tokenString verifyToken
  rw [if_neg (by simpa using hk), hdec]

/-! ## The claims -/

/-- C1: round trip — for every non-empty signing key and every
`idLength ≥ 16`, issuing a token (`NewTokenOfLength`), encoding it with
`String()`, and verifying that string with `VerifyToken` under the same key
succeeds and yields a token whose ID bytes and transport string equal the
original's.  (`rb` is the byte sequence the random reader supplies, so its
elements are below 256.) -/
theorem c1_round_trip (key rb : Bytes) (idLength : Nat)
    (hkey : key ≠ []) (hlen : MinIDLength ≤ idLength)
    (hrb : ∀ b ∈ rb, b < 256) :
    ∃ tk tk2, newTokenOfLength key idLength (.ok rb) = .ok tk ∧
      verifyToken (tokenString tk) key = .ok tk2 ∧
      tokenID tk2 = tokenID tk ∧ tokenString tk2 = tokenString tk := by
  refine ⟨_, _, newTokenOfLength_idbuf key rb idLength hkey hlen, ?_, rfl, rfl⟩
  exact verifyToken_ok key _ hkey
    (by rw [idbuf_length]; exact hlen) (idbuf_lt rb idLength hrb)

/-- Witness for C1 at a concrete key, ID length, and random read. -/
theorem c1_round_trip_witness :
    ([1] : Bytes) ≠ [] ∧ MinIDLength ≤ 16 ∧
    (∀ b ∈ (List.replicate 16 0 : Bytes), b < 256) ∧
    (∃ tk tk2, newTokenOfLength [1] 16 (.ok (List.replicate 16 0)) = .ok tk ∧
      verifyToken (tokenString tk) [1] = .ok tk2 ∧
      tokenID tk2 = tokenID tk ∧ tokenString tk2 = tokenString tk) :=
  ⟨by decide, by decide, by decide,
   c1_round_trip [1] (List.replicate 16 0) 16 (by decide) (by decide)
     (by decide)⟩

/-- C2 counterexample: a token string whose base64 decoding succeeds with a
buffer of exactly 48 bytes is *not* rejected with the too-short error — the
length check in `VerifyToken` is `len(buf) < 48`, so 48 bytes pass it and
verification proceeds to the signature comparison. -/
theorem c2_counterexample :
    b64decode (b64encode (List.replicate 48 0)) = .ok (List.replicate 48 0) ∧
    (List.replicate 48 0 : Bytes).length = 48 ∧
    verifyToken (b64encode (List.replicate 48 0)) [1] ≠
      .error "token not long enough" := by
  refine ⟨b64encode_roundtrip _ (by decide), by decide, ?_⟩
  unfold verifyToken
  rw [if_neg (by decide), b64encode_roundtrip _ (by decide)]
  dsimp only
  rw [if_neg (by decide)]
  split <;> simp

/-- C2 amended: for every non-empty key and every token string whose base64
decoding succeeds, `VerifyToken` fails with the too-short error exactly when
the decoded buffer is *shorter* than 48 bytes (signature size 32 plus
minimum ID length 16); a decoded buffer of exactly 48 bytes passes the
length check. -/
theorem c2_length_bound (key : Bytes) (s : List Char) (buf : Bytes)
    (hk : key ≠ []) (hdec : b64decode s = .ok buf) :
    (buf.length < 48 → verifyToken s key = .error "token not long enough") ∧
    (48 ≤ buf.length → verifyToken s key ≠ .error "token not long enough") := by
  unfold verifyToken
  rw [if_neg (by simpa using hk), hdec]
  dsimp only
  constructor
  · intro h
    rw [if_pos (by simp only [sha256Size, MinIDLength]; omega)]
  · intro h
    rw [if_neg (by simp only [sha256Size, MinIDLength]; omega)]
    split <;> simp

/-- Witness for C2's amended bound at a concrete short input. -/
theorem c2_length_bound_witness :
    ([1] : Bytes) ≠ [] ∧ b64decode "AAAA".toList = .ok [0, 0, 0] ∧
    verifyToken "AAAA".toList [1] = .error "token not long enough" :=
  ⟨by decide, by decide,
   (c2_length_bound [1] "AAAA".toList [0, 0, 0] (by decide) (by decide)).1
     (by decide)⟩

/-- C4 counterexample: `NewManager` cannot reject anything — constructing a
manager with an empty key ring, or with a ring holding a zero-length key,
succeeds and the manager holds exactly those keys. -/
theorem c4_counterexample :
    (newManager 32 []).signingKeys = [] ∧
    (newManager 32 [[]]).signingKeys = [[]] :=
  ⟨rfl, rfl⟩

/-- C4 amended: `NewManager` performs no key-ring validation (its Go return
type is a bare `Manager`, so it cannot fail); it stores the ID length and
key list exactly as given.  Zero-length keys are instead rejected when
used: `NewTokenOfLength` and `VerifyToken` both fail on an empty signing
key. -/
theorem c4_no_validation (idLength : Nat) (keys : List Bytes) (n : Nat)
    (r : Except String Bytes) (s : List Char) :
    (newManager idLength keys).idLength = idLength ∧
    (newManager idLength keys).signingKeys = keys ∧
    newTokenOfLength [] n r = .error "zero-length signing key" ∧
    verifyToken s [] = .error "zero-length signing key" :=
  ⟨rfl, rfl, rfl, rfl⟩

/-- C8 counterexample: a valid token of ID length 17 (49-byte buffer, so
its encoding carries two `=` padding characters).  `VerifyToken` accepts
the padded transport string but rejects the same string with the padding
removed — Go's `base64.URLEncoding` requires padding. -/
theorem c8_counterexample :
    newTokenOfLength [1] 17 (.ok (List.replicate 17 0)) =
      .ok ⟨List.replicate 17 0 ++ hmacSHA256 [1] (List.replicate 17 0)⟩ ∧
    verifyToken
        (tokenString ⟨List.replicate 17 0 ++ hmacSHA256 [1] (List.replicate 17 0)⟩)
        [1] =
      .ok ⟨List.replicate 17 0 ++ hmacSHA256 [1] (List.replicate 17 0)⟩ ∧
    verifyToken
        (stripPad (tokenString
          ⟨List.replicate 17 0 ++ hmacSHA256 [1] (List.replicate 17 0)⟩))
        [1] =
      .error ("error base64-decoding the token: " ++ decodeErrMsg) := by
  refine ⟨?_, ?_, ?_⟩
  · rw [newTokenOfLength_idbuf [1] (List.replicate 17 0) 17 (by decide)
      (by decide)]
    simp [List.take_replicate]
  · exact verifyToken_ok [1] (List.replicate 17 0) (by decide) (by decide)
      (by decide)
  · exact verify_stripped_fails [1] (List.replicate 17 0) (by decide)
      (by decide) (by decide)

/-- C8 amended: `VerifyToken` accepts the padded URL-safe base64 encoding of
every valid token's buffer; when the buffer length (`idLength + 32`) is not
a multiple of three the encoding carries padding, and the same string with
its trailing padding characters removed is rejected with a base64-decoding
error (the decoder requires padding). -/
theorem c8_padding_required (key rb : Bytes) (idLength : Nat) (tk : Token)
    (hnew : newTokenOfLength key idLength (.ok rb) = .ok tk)
    (hrb : ∀ b ∈ rb, b < 256) :
    verifyToken (tokenString tk) key = .ok tk ∧
    ((idLength + 32) % 3 ≠ 0 →
      verifyToken (stripPad (tokenString tk)) key =
        .error ("error base64-decoding the token: " ++ decodeErrMsg)) := by
  obtain ⟨hk, hlen, htk⟩ := newTokenOfLength_inv key rb idLength tk hnew
  subst htk
  constructor
  · exact verifyToken_ok key _ hk (by rw [idbuf_length]; exact hlen)
      (idbuf_lt rb idLength hrb)
  · intro hm
    exact verify_stripped_fails key _ hk (idbuf_lt rb idLength hrb)
      (by rw [idbuf_length]; exact hm)

/-- Witness for C8's amended statement at ID length 17 and key `[2]`. -/
theorem c8_padding_required_witness :
    newTokenOfLength [2] 17 (.ok (List.replicate 17 3)) =
      .ok ⟨List.replicate 17 3 ++ hmacSHA256 [2] (List.replicate 17 3)⟩ ∧
    (∀ b ∈ (List.replicate 17 3 : Bytes), b < 256) ∧ (17 + 32) % 3 ≠ 0 ∧
    verifyToken
        (tokenString ⟨List.replicate 17 3 ++ hmacSHA256 [2] (List.replicate 17 3)⟩)
        [2] =
      .ok ⟨List.replicate 17 3 ++ hmacSHA256 [2] (List.replicate 17 3)⟩ ∧
    verifyToken
        (stripPad (tokenString
          ⟨List.replicate 17 3 ++ hmacSHA256 [2] (List.replicate 17 3)⟩))
        [2] =
      .error ("error base64-decoding the token: " ++ decodeErrMsg) := by
  have hnew : newTokenOfLength [2] 17 (.ok (List.replicate 17 3)) =
      .ok ⟨List.replicate 17 3 ++ hmacSHA256 [2] (List.replicate 17 3)⟩ := by
    rw [newTokenOfLength_idbuf [2] (List.replicate 17 3) 17 (by decide)
      (by decide)]
    simp [List.take_replicate]
  have hc := c8_padding_required [2] (List.replicate 17 3) 17
    ⟨List.replicate 17 3 ++ hmacSHA256 [2] (List.replicate 17 3)⟩ hnew
    (by decide)
  exact ⟨hnew, by decide, by decide, hc.1, hc.2 (by decide)⟩

/-- C3 counterexample: a header value carrying `Bearer` followed by a
character other than a space (here `BearerXabc`) is *not* rejected with
`ErrUnsupportedTokenType`; `GetToken` checks only the six-character prefix
`Bearer`, skips seven characters, and passes the remainder (`abc`) to
verification, which fails with a base64-decoding error instead. -/
theorem c3_counterexample :
    getToken (newManager 32 [[1]]) "BearerXabc".toList [] =
      .ret none (some ("error verifying session token: " ++
        ("error base64-decoding the token: " ++ decodeErrMsg))) ∧
    getToken (newManager 32 [[1]]) "BearerXabc".toList [] ≠
      .ret none (some errUnsupportedTokenType) := by
  constructor
  · decide
  · decide

/-- C3 amended: `GetToken` checks only the six-character, case-sensitive
prefix `Bearer` (not `Bearer ` with the space).  A non-empty value lacking
that prefix fails with `ErrUnsupportedTokenType`; a value of length at
least 7 carrying the prefix has its first seven characters removed —
whatever the seventh character is — and the remainder is passed to the
verification loop. -/
theorem c3_bearer_check (m : Manager) (hdr : List Char) (hne : hdr ≠ []) :
    (¬ bearerChars.isPrefixOf hdr = true →
        getToken m hdr [] = .ret none (some errUnsupportedTokenType)) ∧
    (bearerChars.isPrefixOf hdr = true → 7 ≤ hdr.length →
        getToken m hdr [] = verifyRemainder m (hdr.drop 7)) := by
  have hl : ¬ hdr.length = 0 := by simpa using hne
  unfold getToken
  simp only [if_neg hl]
  constructor
  · intro hp
    rw [if_pos (by simpa using hp)]
  · intro hp h7
    rw [if_neg (by simp [hp])]
    unfold goSliceFrom
    rw [show bearerChars.length + 1 = 7 from rfl, if_pos h7]

/-- Witness for C3's amended statement: a `Basic` value is rejected as
unsupported, and a well-formed `Bearer ` value reaches verification with
the first seven characters removed. -/
theorem c3_bearer_check_witness :
    getToken (newManager 32 [[1]]) "Basic x".toList [] =
      .ret none (some errUnsupportedTokenType) ∧
    getToken (newManager 32 [[1]]) "Bearer abc".toList [] =
      verifyRemainder (newManager 32 [[1]]) ("Bearer abc".toList.drop 7) :=
  ⟨(c3_bearer_check (newManager 32 [[1]]) "Basic x".toList (by decide)).1
     (by decide),
   (c3_bearer_check (newManager 32 [[1]]) "Bearer abc".toList (by decide)).2
     (by decide) (by decide)⟩

/-- C7: `GetToken` takes its candidate from the `Authorization` header when
that is non-empty, otherwise from the `auth` query parameter, and it fails
with `ErrNoToken` exactly when both are empty. -/
theorem c7_source_order (m : Manager) (hdr q : List Char) :
    getToken m hdr q = getToken m (if hdr = [] then q else hdr) [] ∧
    (getToken m hdr q = .ret none (some errNoToken) ↔ hdr = [] ∧ q = []) := by
  have hfirst : getToken m hdr q = getToken m (if hdr = [] then q else hdr) [] := by
    by_cases hh : hdr = []
    · subst hh
      rw [if_pos rfl]
      by_cases hq : q = []
      · subst hq
        rfl
      · have hql : ¬ q.length = 0 := by simpa using hq
        unfold getToken
        simp [hql]
    · rw [if_neg hh]
      exact getToken_candidate_only m hdr q hh
  refine ⟨hfirst, ?_, ?_⟩
  · intro hres
    by_contra hc
    have hcand : (if hdr = [] then q else hdr) ≠ [] := by
      by_cases hh : hdr = []
      · simp [hh] at hc ⊢
        tauto
      · simp [hh]
    exact getToken_single_ne_noToken m _ hcand (hfirst ▸ hres)
  · rintro ⟨rfl, rfl⟩
    rfl

/-- Witness for C7 at concrete empty and non-empty requests. -/
theorem c7_source_order_witness :
    getToken (newManager 32 [[1]]) [] [] = .ret none (some errNoToken) ∧
    getToken (newManager 32 [[1]]) "Basic x".toList "ignored".toList =
      getToken (newManager 32 [[1]]) "Basic x".toList [] :=
  ⟨(c7_source_order (newManager 32 [[1]]) [] []).2.mpr ⟨rfl, rfl⟩,
   (c7_source_order (newManager 32 [[1]]) "Basic x".toList
      "ignored".toList).1⟩

/-- C9: a request whose `Authorization` value is exactly `Bearer` (six
characters, nothing after the scheme keyword) makes `GetToken` slice
`authHeader[7:]` on a six-character string — a Go run-time panic (slice
bounds out of range), not a returned error. -/
theorem c9_bare_bearer_crash :
    getToken (newManager 32 [[1]]) "Bearer".toList [] = .crash := by
  decide

/-- C10 counterexample: with an empty signing-key ring and a well-formed
`Bearer` value, `GetToken` returns a nil token *and* a nil error — not an
error: the verification loop body never runs, both variables stay nil, and
the final `if err != nil` is false. -/
theorem c10_counterexample :
    getToken (newManager 32 []) "Bearer abc".toList [] = .ret none none := by
  decide

/-- C10 amended: for every well-formed `Bearer` value, a manager whose
signing-key list is empty returns a nil token together with a nil error
from `GetToken` (silent nil/nil, not an error). -/
theorem c10_empty_ring_nil (idLength : Nat) (s : List Char) :
    getToken (newManager idLength []) ("Bearer ".toList ++ s) [] =
      .ret none none := by
  rw [getToken_bearer]
  rfl

/-- C5: key-ring fallback.  (1) A token issued with a key occupying any
position of the manager's ring verifies through `GetToken` (the loop tries
keys in ring order and every success yields the token wrapping the decoded
buffer).  (2) When every ring key fails to verify the candidate — the
shallow rendering of "signed with a key not present in the ring" — the ring
is exhausted and `GetToken` returns the *last* key's failure wrapped in the
verification error. -/
theorem c5_key_rotation (m : Manager) (key rb : Bytes) (idLength : Nat)
    (tk : Token) (s : List Char) :
    (key ∈ m.signingKeys →
      newTokenOfLength key idLength (.ok rb) = .ok tk →
      (∀ b ∈ rb, b < 256) →
      getToken m ("Bearer ".toList ++ tokenString tk) [] =
        .ret (some tk) none) ∧
    ((∀ k ∈ m.signingKeys, ∃ e, verifyToken s k = .error e) →
      m.signingKeys ≠ [] →
      ∃ klast e, m.signingKeys.getLast? = some klast ∧
        verifyToken s klast = .error e ∧
        getToken m ("Bearer ".toList ++ s) [] =
          .ret none (some ("error verifying session token: " ++ e))) := by
  constructor
  · intro hmem hnew hrb
    obtain ⟨hk, hlen, htk⟩ := newTokenOfLength_inv key rb idLength tk hnew
    have hver : verifyToken (tokenString tk) key = .ok tk := by
      rw [htk]
      exact verifyToken_ok key _ hk (by rw [idbuf_length]; exact hlen)
        (idbuf_lt rb idLength hrb)
    have huniq : ∀ k t2, verifyToken (tokenString tk) k = .ok t2 → t2 = tk :=
      fun k t2 h2 => verifyToken_same_buf _ k key t2 tk h2 hver
    rw [getToken_bearer]
    unfold verifyRemainder
    rw [verifyLoop_ok (tokenString tk) m.signingKeys tk ⟨key, hmem, hver⟩
      huniq none none]
  · intro hfail hne
    obtain ⟨klast, e, hl, hle, hloop⟩ :=
      verifyLoop_allFail s m.signingKeys hne hfail
    refine ⟨klast, e, hl, hle, ?_⟩
    rw [getToken_bearer]
    unfold verifyRemainder
    rw [hloop none none]

/-- Witness for C5: a ring `[[2], [1]]` verifies a token issued with the
second key `[1]`, and a short bogus candidate fails under every ring key,
surfacing the last key's failure. -/
theorem c5_key_rotation_witness :
    getToken (newManager 16 [[2], [1]])
        ("Bearer ".toList ++
          tokenString ⟨List.replicate 16 0 ++
            hmacSHA256 [1] (List.replicate 16 0)⟩) [] =
      .ret (some ⟨List.replicate 16 0 ++
        hmacSHA256 [1] (List.replicate 16 0)⟩) none ∧
    (∃ klast e, ([[2], [1]] : List Bytes).getLast? = some klast ∧
      verifyToken "AAAA".toList klast = .error e ∧
      getToken (newManager 16 [[2], [1]]) ("Bearer ".toList ++ "AAAA".toList) [] =
        .ret none (some ("error verifying session token: " ++ e))) := by
  have hnew : newTokenOfLength [1] 16 (.ok (List.replicate 16 0)) =
      .ok ⟨List.replicate 16 0 ++ hmacSHA256 [1] (List.replicate 16 0)⟩ := by
    rw [newTokenOfLength_idbuf [1] (List.replicate 16 0) 16 (by decide)
      (by decide)]
    simp [List.take_replicate]
  have hc := c5_key_rotation (newManager 16 [[2], [1]]) [1]
    (List.replicate 16 0) 16
    ⟨List.replicate 16 0 ++ hmacSHA256 [1] (List.replicate 16 0)⟩
    "AAAA".toList
  refine ⟨hc.1 (by decide) hnew (by decide), hc.2 ?_ (by decide)⟩
  intro k hk
  rcases List.mem_cons.mp hk with rfl | hk2
  · exact ⟨"token not long enough", by decide⟩
  · rcases List.mem_cons.mp hk2 with rfl | hk3
    · exact ⟨"token not long enough", by decide⟩
    · simp at hk3

/-- C6: issuance atomicity.  With a non-empty ring: (1) whenever
`NewTokenOfLength` fails, `BeginSession` returns the wrapped error, never
invokes `Store.Save`, and writes no `Authorization` header; (2) in
particular a failing random source always produces such an outcome; and
(3) `Save` is only ever invoked with a token that issuance actually
produced. -/
theorem c6_issuance_atomicity (m : Manager) (keyidx : Nat)
    (randRead : Except String Bytes) (save : Token → Except String Unit)
    (hkeys : m.signingKeys ≠ []) :
    (∀ e, newTokenOfLength
        (m.signingKeys.getD (keyidx % m.signingKeys.length) [])
        m.idLength randRead = .error e →
      beginSession m keyidx randRead save =
        some ⟨.error ("error generating new token: " ++ e), none, none⟩) ∧
    (∀ re, randRead = .error re →
      ∃ e, beginSession m keyidx randRead save =
        some ⟨.error ("error generating new token: " ++ e), none, none⟩) ∧
    (∀ o tk, beginSession m keyidx randRead save = some o →
      o.savedToken = some tk →
      newTokenOfLength
        (m.signingKeys.getD (keyidx % m.signingKeys.length) [])
        m.idLength randRead = .ok tk) := by
  have hlen : ¬ m.signingKeys.length = 0 := by simpa using hkeys
  refine ⟨?_, ?_, ?_⟩
  · intro e he
    unfold beginSession
    rw [if_neg hlen]
    dsimp only
    rw [he]
  · intro re hre
    subst hre
    obtain ⟨e, he⟩ := newTokenOfLength_randErr
      (m.signingKeys.getD (keyidx % m.signingKeys.length) []) m.idLength re
    refine ⟨e, ?_⟩
    unfold beginSession
    rw [if_neg hlen]
    dsimp only
    rw [he]
  · intro o tk ho hsaved
    unfold beginSession at ho
    rw [if_neg hlen] at ho
    dsimp only at ho
    cases hn : newTokenOfLength
        (m.signingKeys.getD (keyidx % m.signingKeys.length) [])
        m.idLength randRead with
    | error e =>
        rw [hn] at ho
        dsimp only at ho
        rw [← Option.some.inj ho] at hsaved
        cases hsaved
    | ok t =>
        rw [hn] at ho
        dsimp only at ho
        cases hs : save t with
        | error e =>
            rw [hs] at ho
            dsimp only at ho
            rw [← Option.some.inj ho] at hsaved
            rw [Option.some.inj hsaved]
        | ok u =>
            rw [hs] at ho
            dsimp only at ho
            rw [← Option.some.inj ho] at hsaved
            rw [Option.some.inj hsaved]

/-- Witness for C6 at a concrete manager and a failing random source. -/
theorem c6_issuance_atomicity_witness :
    ((newManager 16 [[1]]).signingKeys ≠ []) ∧
    beginSession (newManager 16 [[1]]) 0 (.error "boom")
        (fun _ => .ok ()) =
      some ⟨.error ("error generating new token: " ++
        "error reading random bytes: boom"), none, none⟩ :=
  ⟨by decide,
   (c6_issuance_atomicity (newManager 16 [[1]]) 0 (.error "boom")
      (fun _ => .ok ()) (by decide)).1
     ("error reading random bytes: boom") (by decide)⟩
